import Mathlib

/-!
# Verification of `cityImage/simplify_streets.py`

Shallow embedding of the junction-clustering and dual-line-dissolution engine
of `simplify_streets.py`, together with theorems settling the frozen claims
about it.

Conventions:
* Node ids, edge ids and cluster ids are `Nat`.
* Geometric quantities (lengths, distances, angles, areas, coordinates) are
  rationals.  The external geometry collaborators (`shapely` lengths and
  distances, `angle_line_geometries`, `is_continuation`, `is_parallel`,
  `center_line_coords`, midpoint interpolation) are out of scope per the
  specification and are modelled as explicit function parameters bundled in
  environment structures; every definition below mirrors the *control flow*
  of the Python source over those parameters.
* Pandas tables become lists of records; optional columns become `Option`.
* The unbounded `while` loop of `indirect_cluster` is modelled with an
  explicit fuel argument; running out of fuel yields the same `none`
  sentinel as the source's failure path, so a `some` result always
  corresponds to a genuine successful walk.
-/

namespace SimplifyStreets

/-! ## ClusterBuilder (`identify_clusters`, source lines 20-77)

The buffer-union geometry itself is external (shapely); what the source
decides internally is (a) which connected components of the union survive,
line 57: `buffered_nodes_gdf["area"] > (radius*radius*3.14159)`, and
(b) the id allocation, lines 59-60: `clusters_gdf.index += nodes_gdf.index.max()+1`.
-/

/-- Source line 57: a connected component of the buffered-node union is kept
as a cluster polygon exactly when its area strictly exceeds
`radius*radius*3.14159` (note the literal `3.14159`, not `π`). -/
def keepComponent (radius area : ℚ) : Bool :=
  decide (area > radius * radius * 3.14159)

/-- Modelled from the spec's words (for comparison with `keepComponent`):
a component is kept when its area strictly exceeds the exact area
`π·radius²` of a single disc of radius `radius`. -/
def keepComponentSpec (radius area : ℝ) : Prop :=
  area > Real.pi * radius ^ 2

/-- Source lines 50-60: the candidate components carry consecutive indices
`0, 1, 2, ...` (the `GeoSeries` index); after the area filter the surviving
indices are shifted by `max(existing node id) + 1` and become the
`clusterID`s.  `i` is the index of the first component of the list. -/
def clusterIDsAux (maxNodeID : ℕ) (radius : ℚ) : ℕ → List ℚ → List ℕ
  | _, [] => []
  | i, area :: rest =>
    if keepComponent radius area then
      (i + maxNodeID + 1) :: clusterIDsAux maxNodeID radius (i + 1) rest
    else
      clusterIDsAux maxNodeID radius (i + 1) rest

/-- The list of `clusterID`s allocated by `identify_clusters` given the
maximum existing node id and the areas of the connected components of the
buffer union, in component order. -/
def clusterIDs (maxNodeID : ℕ) (radius : ℚ) (areas : List ℚ) : List ℕ :=
  clusterIDsAux maxNodeID radius 0 areas

end SimplifyStreets

namespace SimplifyStreets

lemma clusterIDsAux_mem_shape (maxNodeID : ℕ) (radius : ℚ) :
    ∀ (areas : List ℚ) (i c : ℕ), c ∈ clusterIDsAux maxNodeID radius i areas →
      ∃ j, i ≤ j ∧ c = maxNodeID + 1 + j := by
  intro areas
  induction areas with
  | nil => intro i c h; simp [clusterIDsAux] at h
  | cons a rest ih =>
    intro i c h
    by_cases hk : keepComponent radius a
    · simp only [clusterIDsAux, hk, if_true, List.mem_cons] at h
      rcases h with h | h
      · exact ⟨i, le_refl i, by omega⟩
      · rcases ih (i + 1) c h with ⟨j, hj, hc⟩
        exact ⟨j, by omega, hc⟩
    · simp only [clusterIDsAux, hk, if_false] at h
      rcases ih (i + 1) c h with ⟨j, hj, hc⟩
      exact ⟨j, by omega, hc⟩

/-- C8: every `clusterID` allocated by `identify_clusters` is strictly greater
than the maximum existing node id; indeed each one equals
`maxNodeID + 1 + componentIndex`, so the allocation starts at
`maxNodeID + 1`. -/
theorem clusterIDs_above_maxNodeID (maxNodeID : ℕ) (radius : ℚ)
    (areas : List ℚ) (c : ℕ) (hc : c ∈ clusterIDs maxNodeID radius areas) :
    maxNodeID < c ∧ ∃ j, c = maxNodeID + 1 + j := by
  rcases clusterIDsAux_mem_shape maxNodeID radius areas 0 c hc with ⟨j, _, hshape⟩
  exact ⟨by omega, ⟨j, hshape⟩⟩

/-- Witness for C8 at a concrete input: with `maxNodeID = 7`, `radius = 1`
and component areas `[4, 1, 5]` (the middle one too small), the allocated
ids are above `7`. -/
theorem clusterIDs_above_maxNodeID_witness :
    8 ∈ clusterIDs 7 1 [4, 1, 5] ∧
      (7 < 8 ∧ ∃ j, 8 = 7 + 1 + j) := by
  have hmem : 8 ∈ clusterIDs 7 1 [4, 1, 5] := by
    have h4 : keepComponent 1 4 = true := by
      simp only [keepComponent, decide_eq_true_eq]
      norm_num
    simp [clusterIDs, clusterIDsAux, h4]
  exact ⟨hmem, clusterIDs_above_maxNodeID 7 1 [4, 1, 5] 8 hmem⟩

/-- C4 counterexample: at `radius = 10` a component of area `314.1592`
is kept by the source (`314.1592 > 100·3.14159`), although its area does
not exceed `π·10² ≈ 314.159265`, which the claim says should discard it. -/
theorem keepComponent_pi_counterexample :
    keepComponent 10 (3141592 / 10000) = true ∧
      ¬ keepComponentSpec 10 (3141592 / 10000) := by
  constructor
  · simp only [keepComponent, decide_eq_true_eq]
    norm_num
  · intro h
    unfold keepComponentSpec at h
    have hpi : (3.141592 : ℝ) < Real.pi := Real.pi_gt_d6
    nlinarith [h, hpi]

/-- C4 (amended): a component is kept iff its area strictly exceeds
`3.14159·radius²`, where `3.14159` is a fixed rational approximation lying
strictly below `π`; consequently exceeding the exact disc area `π·radius²`
is sufficient for being kept, but not necessary. -/
theorem keepComponent_iff_and_spec_implies (radius area : ℚ)
    (h : keepComponentSpec (radius : ℝ) (area : ℝ)) :
    keepComponent radius area = true ∧
      (keepComponent radius area = true ↔ area > radius * radius * 3.14159) := by
  have hiff : keepComponent radius area = true ↔ area > radius * radius * 3.14159 := by
    simp only [keepComponent, decide_eq_true_eq]
  refine ⟨?_, hiff⟩
  rw [hiff]
  unfold keepComponentSpec at h
  have hpi : (3.141592 : ℝ) < Real.pi := Real.pi_gt_d6
  have hsq : (0 : ℝ) ≤ (radius : ℝ) ^ 2 := sq_nonneg _
  have hR : ((radius : ℝ) * radius * 3.14159) < (area : ℝ) := by nlinarith
  have hcast : ((radius * radius * 3.14159 : ℚ) : ℝ) < ((area : ℚ) : ℝ) := by
    push_cast
    exact hR
  exact_mod_cast hcast

/-! ## ClusterReachability (`indirect_cluster`, source lines 119-235)

The walker is embedded over an environment carrying the edge table and the
external geometry collaborators:

* `dist n m` models `nodes_gdf.loc[n].geometry.distance(nodes_gdf.loc[m].geometry)`;
* `cdist c n` models `clusters_gdf.loc[c].geometry.distance(nodes_gdf.loc[n].geometry)`;
* `isCont a b` models `is_continuation(a, b, edges_gdf)`;
* `angle a b` models `angle_line_geometries(edges.loc[a].geometry, edges.loc[b].geometry,
  deflection=True, degree=True)`;
* `clusterOf n` models `nodes_gdf.loc[n].cluster`.

The merged polyline accumulation (`line_coords`) is pure external geometry
concatenation and is not tracked; every other piece of walk state is.
-/

/-- An edge row: `edgeID`, `u`, `v`. -/
structure Edge where
  eid : ℕ
  u : ℕ
  v : ℕ
deriving DecidableEq, Repr

/-- Environment of `indirect_cluster`: edge table plus external collaborators. -/
structure WalkEnv where
  edges : List Edge
  clusterOf : ℕ → Option ℕ
  dist : ℕ → ℕ → ℚ
  cdist : ℕ → ℕ → ℚ
  isCont : ℕ → ℕ → Bool
  angle : ℕ → ℕ → ℚ

/-- Selection `edges_gdf[(edges_gdf.u == n) | (edges_gdf.v == n)]` (source lines 133/138/201/205). -/
def incidentTo (env : WalkEnv) (n : ℕ) : List Edge :=
  env.edges.filter (fun e => e.u = n ∨ e.v = n)

/-- Stable insertion into a list sorted ascending by `key`. -/
def insertByKey (key : Edge → ℚ) (e : Edge) : List Edge → List Edge
  | [] => [e]
  | x :: xs => if key e ≤ key x then e :: x :: xs else x :: insertByKey key e xs

/-- Ascending stable sort by `key`, modelling
`possible_matches.sort_values(by='angle', ascending=True)` (source line 167). -/
def sortByKey (key : Edge → ℚ) : List Edge → List Edge
  | [] => []
  | x :: xs => insertByKey key x (sortByKey key xs)

/-- Mutable state of the `while` loop of `indirect_cluster`. -/
structure WalkState where
  comingFrom : ℕ
  lastLine : ℕ
  pm : List Edge
  nodesTraversed : List ℕ
  linesTraversed : List ℕ
  clustersTraversed : List ℕ
deriving DecidableEq, Repr

/-- Result of a successful walk (source line 235); the all-`None` failure
sentinel of the source is `Option.none` on the Lean side. -/
structure WalkResult where
  cluster : ℕ
  linesTraversed : List ℕ
  nodesTraversed : List ℕ
  lastNode : ℕ
  clustersTraversed : List ℕ
deriving DecidableEq, Repr

/-- Outcome of the `for connector in possible_matches` loop
(source lines 171-228). -/
inductive StepOut where
  /-- Guard failure (`possible_matches = possible_matches[0:0]; break`,
  lines 185/193) or all candidates dropped by the continuation test: either
  way the `while` loop's next test finds `possible_matches` empty and the
  walk returns the null sentinel. -/
  | fail
  /-- The `cluster is None / not the desired one` branch, lines 196-212:
  the walk advances and continues. -/
  | moved (st : WalkState)
  /-- The `found = True` branch, lines 214-228. -/
  | finished (cluster : ℕ) (linesTraversed : List ℕ) (nodesTraversed : List ℕ)
      (lastNode : ℕ) (clustersTraversed : List ℕ)
deriving DecidableEq, Repr

/-- Source lines 196-228: an accepted candidate either continues the walk
(`cluster is None`, or targeted mode and a different cluster) or finishes it.
`newCF` is the updated `coming_from`; the node appended to `nodes_traversed`
and the rebuilt `possible_matches` follow the source's
`if vCP == coming_from` tests literally. -/
def acceptCandidate (env : WalkEnv) (specific : Bool) (desired : ℕ)
    (st : WalkState) (c : Edge) (newCF : ℕ) (cluster : Option ℕ) : StepOut :=
  match cluster with
  | none =>
    .moved { comingFrom := newCF
             lastLine := c.eid
             pm := if c.v = newCF then incidentTo env c.v else incidentTo env c.u
             nodesTraversed := st.nodesTraversed ++ [if c.v = newCF then c.u else c.v]
             linesTraversed := st.linesTraversed ++ [c.eid]
             clustersTraversed := st.clustersTraversed }
  | some cl =>
    if specific ∧ cl ≠ desired then
      .moved { comingFrom := newCF
               lastLine := c.eid
               pm := if c.v = newCF then incidentTo env c.v else incidentTo env c.u
               nodesTraversed := st.nodesTraversed ++ [if c.v = newCF then c.u else c.v]
               linesTraversed := st.linesTraversed ++ [c.eid]
               clustersTraversed := st.clustersTraversed ++ [cl] }
    else
      .finished cl (st.linesTraversed ++ [c.eid])
        (st.nodesTraversed ++ [if c.v = newCF then c.u else c.v])
        (if c.v = newCF then c.v else c.u)
        st.clustersTraversed

/-- The body of the candidate loop, source lines 171-228, iterating the
angle-sorted candidates.  For each candidate failing `is_continuation`
the row is dropped and the next candidate tried (lines 172-174); otherwise
the candidate is accepted or the walk fails at the revisit/anti-backtrack
guard (lines 179-194). -/
def tryCandidates (env : WalkEnv) (specific : Bool) (desired : ℕ) (otherNode : ℕ)
    (st : WalkState) : List Edge → StepOut
  | [] => .fail
  | c :: rest =>
    if ¬ env.isCont st.lastLine c.eid then
      tryCandidates env specific desired otherNode st rest
    else
      -- lines 177-194: uCP, vCP = connector endpoints
      if c.u = st.comingFrom then
        -- branch `uCP == coming_from`: the walk moves to `vCP`
        if c.v ∈ st.nodesTraversed ∨ env.dist c.v otherNode < env.dist c.u otherNode then
          .fail
        else
          acceptCandidate env specific desired st c c.v (env.clusterOf c.v)
      else
        -- branch `else` (vCP == coming_from for incident candidates): move to `uCP`
        if c.u ∈ st.nodesTraversed ∨ env.dist c.u otherNode < env.dist c.v otherNode then
          .fail
        else
          acceptCandidate env specific desired st c c.u (env.clusterOf c.u)

/-- The `while not found` loop (source lines 153-228), with explicit fuel.
On each iteration: empty candidate set fails (line 154); in targeted mode a
current distance to the desired cluster strictly above the *initial*
distance fails (lines 156-158); the edge just traversed is dropped
(line 160); the remaining candidates are sorted by ascending deflection
angle (lines 161-167) and handed to the candidate loop. -/
def walkLoop (env : WalkEnv) (specific : Bool) (desired : ℕ) (otherNode : ℕ)
    (distanceStart : ℚ) : ℕ → WalkState → Option WalkResult
  | 0, _ => none
  | fuel + 1, st =>
    if st.pm = [] then none
    else if specific = true ∧ env.cdist desired st.comingFrom > distanceStart then none
    else
      let pmDropped := st.pm.filter (fun e => e.eid ≠ st.lastLine)
      let sorted := sortByKey (fun e => env.angle st.lastLine e.eid) pmDropped
      if sorted = [] then none
      else
        match tryCandidates env specific desired otherNode st sorted with
        | .fail => none
        | .moved st' => walkLoop env specific desired otherNode distanceStart fuel st'
        | .finished cl lt nt ln ct =>
          some { cluster := cl, linesTraversed := lt, nodesTraversed := nt,
                 lastNode := ln,
                 clustersTraversed :=
                   -- lines 230-233: targeted-mode backfill of clusters passed through
                   if specific ∧ ct = [] then nt.filterMap env.clusterOf else ct }

/-- Walk direction: which endpoint of the starting edge to walk from. -/
inductive Dir where
  | u
  | v
deriving DecidableEq, Repr

/-- Function `indirect_cluster` (source lines 119-235).  Looks up the starting edge,
sets `coming_from` / `other_node` and the initial candidate set
(lines 125-144), fixes `distance_start` once (lines 147-151), then runs the
walk loop.  A missing starting edge raises in the source and is mapped to
the failure sentinel here. -/
def indirectCluster (env : WalkEnv) (ixLine : ℕ) (searchDir : Dir)
    (specific : Bool) (desired : ℕ) (fuel : ℕ) : Option WalkResult :=
  match env.edges.find? (fun e => e.eid = ixLine) with
  | none => none
  | some e =>
    let comingFrom := if searchDir = Dir.v then e.v else e.u
    let otherNode := if searchDir = Dir.v then e.u else e.v
    let pm0 := (incidentTo env comingFrom).filter (fun x => x.eid ≠ ixLine)
    let distanceStart : ℚ := if specific then env.cdist desired comingFrom else 0
    walkLoop env specific desired otherNode distanceStart fuel
      { comingFrom := comingFrom, lastLine := ixLine, pm := pm0,
        nodesTraversed := [], linesTraversed := [], clustersTraversed := [] }

/-- Witness for C4's amended theorem at `radius = 1`, `area = 4`:
`4 > π` so the spec-level condition holds, and the source keeps it. -/
theorem keepComponent_spec_implies_witness :
    keepComponentSpec ((1 : ℚ) : ℝ) ((4 : ℚ) : ℝ) ∧
      keepComponent 1 4 = true := by
  have hspec : keepComponentSpec ((1 : ℚ) : ℝ) ((4 : ℚ) : ℝ) := by
    unfold keepComponentSpec
    have hlt : Real.pi < 3.141593 := Real.pi_lt_d6
    push_cast
    nlinarith
  exact ⟨hspec, (keepComponent_iff_and_spec_implies 1 4 hspec).1⟩

end SimplifyStreets

namespace SimplifyStreets

/-! ### Walker helper lemmas -/

lemma mem_insertByKey (key : Edge → ℚ) (e x : Edge) :
    ∀ l : List Edge, x ∈ insertByKey key e l ↔ x = e ∨ x ∈ l := by
  intro l
  induction l with
  | nil => simp [insertByKey]
  | cons a rest ih =>
    by_cases h : key e ≤ key a
    · simp [insertByKey, h]
    · simp only [insertByKey, h, if_false, List.mem_cons, ih]
      tauto

lemma mem_sortByKey (key : Edge → ℚ) (x : Edge) :
    ∀ l : List Edge, x ∈ sortByKey key l ↔ x ∈ l := by
  intro l
  induction l with
  | nil => simp [sortByKey]
  | cons a rest ih =>
    simp only [sortByKey, mem_insertByKey, ih, List.mem_cons]

lemma mem_incidentTo (env : WalkEnv) (n : ℕ) (e : Edge) :
    e ∈ incidentTo env n → e ∈ env.edges ∧ (e.u = n ∨ e.v = n) := by
  intro h
  unfold incidentTo at h
  rw [List.mem_filter] at h
  refine ⟨h.1, ?_⟩
  have := h.2
  simpa using this

lemma acceptCandidate_moved_shape (env : WalkEnv) (sp : Bool) (d : ℕ)
    (st : WalkState) (c : Edge) (newCF : ℕ) (cl : Option ℕ) (st' : WalkState)
    (h : acceptCandidate env sp d st c newCF cl = .moved st') :
    st'.comingFrom = newCF ∧
      st'.nodesTraversed = st.nodesTraversed ++ [if c.v = newCF then c.u else c.v] ∧
      st'.pm = (if c.v = newCF then incidentTo env c.v else incidentTo env c.u) := by
  unfold acceptCandidate at h
  split at h
  · cases h
    exact ⟨rfl, rfl, rfl⟩
  · split at h
    · cases h
      exact ⟨rfl, rfl, rfl⟩
    · cases h

lemma acceptCandidate_finished_shape (env : WalkEnv) (sp : Bool) (d : ℕ)
    (st : WalkState) (c : Edge) (newCF : ℕ) (cl : Option ℕ)
    (clu : ℕ) (lt nt : List ℕ) (ln : ℕ) (ct : List ℕ)
    (h : acceptCandidate env sp d st c newCF cl = .finished clu lt nt ln ct) :
    ln = (if c.v = newCF then c.v else c.u) ∧
      nt = st.nodesTraversed ++ [if c.v = newCF then c.u else c.v] := by
  unfold acceptCandidate at h
  split at h
  · cases h
  · split at h
    · cases h
    · cases h
      exact ⟨rfl, rfl⟩

end SimplifyStreets

namespace SimplifyStreets

/-- C1 (amended): in `indirect_cluster`, a continuation candidate is accepted
(the walk moves on, or finishes) only if the newly reached node has not been
traversed earlier in the walk AND advancing does not *decrease* the newly
reached node's distance back to `other_node` relative to the current node's
distance (source line 184/192: the walk fails when
`distance_to < distance_from`; steps that keep or increase that distance are
the ones accepted). -/
theorem indirect_cluster_acceptance_guard (env : WalkEnv) (specific : Bool)
    (desired otherNode : ℕ) (st : WalkState) (cands : List Edge)
    (hinc : ∀ e ∈ cands, e.u = st.comingFrom ∨ e.v = st.comingFrom) :
    (∀ st', tryCandidates env specific desired otherNode st cands = .moved st' →
        st'.comingFrom ∉ st.nodesTraversed ∧
        env.dist st.comingFrom otherNode ≤ env.dist st'.comingFrom otherNode) ∧
    (∀ cl lt nt ln ct,
        tryCandidates env specific desired otherNode st cands = .finished cl lt nt ln ct →
        ln ∉ st.nodesTraversed ∧
        env.dist st.comingFrom otherNode ≤ env.dist ln otherNode) := by
  induction cands with
  | nil =>
    constructor
    · intro st' h
      simp [tryCandidates] at h
    · intro cl lt nt ln ct h
      simp [tryCandidates] at h
  | cons c rest ih =>
    have hc : c.u = st.comingFrom ∨ c.v = st.comingFrom := hinc c (by simp)
    have hrest : ∀ e ∈ rest, e.u = st.comingFrom ∨ e.v = st.comingFrom := by
      intro e he
      exact hinc e (by simp [he])
    by_cases hcont : env.isCont st.lastLine c.eid
    · by_cases hcu : c.u = st.comingFrom
      · by_cases hg : c.v ∈ st.nodesTraversed ∨ env.dist c.v otherNode < env.dist c.u otherNode
        · constructor
          · intro st' h
            simp only [tryCandidates, hcont, not_true, if_false, if_pos hcu, if_pos hg] at h
            cases h
          · intro cl lt nt ln ct h
            simp only [tryCandidates, hcont, not_true, if_false, if_pos hcu, if_pos hg] at h
            cases h
        · push_neg at hg
          constructor
          · intro st' h
            simp only [tryCandidates, hcont, not_true, if_false, if_pos hcu, if_neg
              (by push_neg; exact hg :
                ¬(c.v ∈ st.nodesTraversed ∨ env.dist c.v otherNode < env.dist c.u otherNode))] at h
            rcases acceptCandidate_moved_shape env specific desired st c c.v
              (env.clusterOf c.v) st' h with ⟨hcf, _, _⟩
            rw [hcf, ← hcu]
            exact ⟨hg.1, hg.2⟩
          · intro cl lt nt ln ct h
            simp only [tryCandidates, hcont, not_true, if_false, if_pos hcu, if_neg
              (by push_neg; exact hg :
                ¬(c.v ∈ st.nodesTraversed ∨ env.dist c.v otherNode < env.dist c.u otherNode))] at h
            rcases acceptCandidate_finished_shape env specific desired st c c.v
              (env.clusterOf c.v) cl lt nt ln ct h with ⟨hln, _⟩
            simp only [if_pos rfl] at hln
            rw [hln, ← hcu]
            exact ⟨hg.1, hg.2⟩
      · have hcv : c.v = st.comingFrom := hc.resolve_left hcu
        by_cases hg : c.u ∈ st.nodesTraversed ∨ env.dist c.u otherNode < env.dist c.v otherNode
        · constructor
          · intro st' h
            simp only [tryCandidates, hcont, not_true, if_false, if_neg hcu, if_pos hg] at h
            cases h
          · intro cl lt nt ln ct h
            simp only [tryCandidates, hcont, not_true, if_false, if_neg hcu, if_pos hg] at h
            cases h
        · push_neg at hg
          constructor
          · intro st' h
            simp only [tryCandidates, hcont, not_true, if_false, if_neg hcu, if_neg
              (by push_neg; exact hg :
                ¬(c.u ∈ st.nodesTraversed ∨ env.dist c.u otherNode < env.dist c.v otherNode))] at h
            rcases acceptCandidate_moved_shape env specific desired st c c.u
              (env.clusterOf c.u) st' h with ⟨hcf, _, _⟩
            rw [hcf, ← hcv]
            exact ⟨hg.1, hg.2⟩
          · intro cl lt nt ln ct h
            simp only [tryCandidates, hcont, not_true, if_false, if_neg hcu, if_neg
              (by push_neg; exact hg :
                ¬(c.u ∈ st.nodesTraversed ∨ env.dist c.u otherNode < env.dist c.v otherNode))] at h
            rcases acceptCandidate_finished_shape env specific desired st c c.u
              (env.clusterOf c.u) cl lt nt ln ct h with ⟨hln, _⟩
            have hne : c.v ≠ c.u := by
              intro hvu
              exact hcu (hvu ▸ hcv)
            simp only [if_neg hne] at hln
            rw [hln, ← hcv]
            exact ⟨hg.1, hg.2⟩
    · have hskip : tryCandidates env specific desired otherNode st (c :: rest) =
          tryCandidates env specific desired otherNode st rest := by
        simp only [tryCandidates, hcont]
        simp
      rw [hskip]
      exact ih hrest

end SimplifyStreets

namespace SimplifyStreets

lemma tryCandidates_skip_noncontinuations (env : WalkEnv) (specific : Bool)
    (desired otherNode : ℕ) (st : WalkState) :
    ∀ (pre tail : List Edge), (∀ x ∈ pre, env.isCont st.lastLine x.eid = false) →
      tryCandidates env specific desired otherNode st (pre ++ tail) =
        tryCandidates env specific desired otherNode st tail := by
  intro pre
  induction pre with
  | nil => intro tail _; rfl
  | cons a rest ih =>
    intro tail hpre
    have ha : env.isCont st.lastLine a.eid = false := hpre a (by simp)
    have hrest : ∀ x ∈ rest, env.isCont st.lastLine x.eid = false := by
      intro x hx
      exact hpre x (by simp [hx])
    simp only [List.cons_append, tryCandidates, ha]
    simpa using ih tail hrest

/-- C10: during an `indirect_cluster` step, candidates failing the
continuation test are skipped in favour of the next candidate in
ascending-angle order, but as soon as the *first* candidate that passes the
continuation test fails the revisit/anti-backtracking guard
(source lines 184-185 / 192-193), `possible_matches` is emptied and the
whole walk returns the all-null sentinel: no later candidate at that node is
tried. -/
theorem indirect_cluster_first_passing_candidate_guard_fails (env : WalkEnv)
    (specific : Bool) (desired otherNode : ℕ) (distanceStart : ℚ) (fuel : ℕ)
    (st : WalkState) (pre : List Edge) (c : Edge) (rest : List Edge)
    (hsorted : sortByKey (fun e => env.angle st.lastLine e.eid)
        (st.pm.filter (fun e => e.eid ≠ st.lastLine)) = pre ++ c :: rest)
    (hpre : ∀ x ∈ pre, env.isCont st.lastLine x.eid = false)
    (hcont : env.isCont st.lastLine c.eid = true)
    (hguard : if c.u = st.comingFrom
        then c.v ∈ st.nodesTraversed ∨ env.dist c.v otherNode < env.dist c.u otherNode
        else c.u ∈ st.nodesTraversed ∨ env.dist c.u otherNode < env.dist c.v otherNode) :
    walkLoop env specific desired otherNode distanceStart (fuel + 1) st = none := by
  unfold walkLoop
  by_cases hpm : st.pm = []
  · rw [if_pos hpm]
  · rw [if_neg hpm]
    by_cases hspec : specific = true ∧ env.cdist desired st.comingFrom > distanceStart
    · rw [if_pos hspec]
    · rw [if_neg hspec]
      simp only
      rw [hsorted]
      have hne : pre ++ c :: rest ≠ [] := by simp
      rw [if_neg hne]
      rw [tryCandidates_skip_noncontinuations env specific desired otherNode st pre
        (c :: rest) hpre]
      have hfail : tryCandidates env specific desired otherNode st (c :: rest) = .fail := by
        by_cases hcu : c.u = st.comingFrom
        · rw [if_pos hcu] at hguard
          simp only [tryCandidates, hcont, not_true, if_false, if_pos hcu, if_pos hguard]
        · rw [if_neg hcu] at hguard
          simp only [tryCandidates, hcont, not_true, if_false, if_neg hcu, if_pos hguard]
      rw [hfail]

/-- C3 (amended): in targeted-search mode, the failure condition checked at
the top of every iteration of the walk loop (source lines 156-158) is that
the *current* node's distance to the desired cluster strictly exceeds
`distance_start`, the distance measured once from the walk's starting node;
whenever that holds the walk immediately returns the all-null sentinel.
(It is not a step-over-step monotonicity test: distances may stay equal or
rise back up to `distance_start` without failing.) -/
theorem indirect_cluster_targeted_failure (env : WalkEnv) (desired otherNode : ℕ)
    (distanceStart : ℚ) (fuel : ℕ) (st : WalkState)
    (h : env.cdist desired st.comingFrom > distanceStart) :
    walkLoop env true desired otherNode distanceStart (fuel + 1) st = none := by
  unfold walkLoop
  by_cases hpm : st.pm = []
  · rw [if_pos hpm]
  · rw [if_neg hpm]
    rw [if_pos ⟨rfl, h⟩]

end SimplifyStreets

namespace SimplifyStreets

/-- Invariant maintained by the walk loop: the traversed-node list has no
duplicates, the current node is not yet in it, and every pending candidate
is an edge of the table incident to the current node. -/
def WalkInv (env : WalkEnv) (st : WalkState) : Prop :=
  st.nodesTraversed.Nodup ∧ st.comingFrom ∉ st.nodesTraversed ∧
    ∀ e ∈ st.pm, e ∈ env.edges ∧ (e.u = st.comingFrom ∨ e.v = st.comingFrom)

lemma tryCandidates_preserves_inv (env : WalkEnv) (specific : Bool)
    (desired otherNode : ℕ) (st : WalkState)
    (hns : ∀ e ∈ env.edges, e.u ≠ e.v) (hnd : st.nodesTraversed.Nodup)
    (hcf : st.comingFrom ∉ st.nodesTraversed) :
    ∀ cands : List Edge,
      (∀ e ∈ cands, e ∈ env.edges ∧ (e.u = st.comingFrom ∨ e.v = st.comingFrom)) →
      (∀ st', tryCandidates env specific desired otherNode st cands = .moved st' →
          WalkInv env st') ∧
      (∀ cl lt nt ln ct,
          tryCandidates env specific desired otherNode st cands = .finished cl lt nt ln ct →
          nt.Nodup) := by
  intro cands
  induction cands with
  | nil =>
    intro _
    constructor
    · intro st' h
      cases h
    · intro cl lt nt ln ct h
      cases h
  | cons c rest ih =>
    intro hcands
    have hcmem : c ∈ env.edges := (hcands c (by simp)).1
    have hcinc : c.u = st.comingFrom ∨ c.v = st.comingFrom := (hcands c (by simp)).2
    have hcuv : c.u ≠ c.v := hns c hcmem
    have hrest : ∀ e ∈ rest, e ∈ env.edges ∧ (e.u = st.comingFrom ∨ e.v = st.comingFrom) := by
      intro e he
      exact hcands e (by simp [he])
    by_cases hcont : env.isCont st.lastLine c.eid
    · -- `nodes_traversed` gains the old `coming_from`; the walk moves to the far end
      have hnd' : (st.nodesTraversed ++ [st.comingFrom]).Nodup := by
        simp [List.nodup_append, hnd, hcf]
      by_cases hcu : c.u = st.comingFrom
      · by_cases hg : c.v ∈ st.nodesTraversed ∨ env.dist c.v otherNode < env.dist c.u otherNode
        · constructor
          · intro st' h
            simp only [tryCandidates, hcont, not_true, if_false, if_pos hcu, if_pos hg] at h
            cases h
          · intro cl lt nt ln ct h
            simp only [tryCandidates, hcont, not_true, if_false, if_pos hcu, if_pos hg] at h
            cases h
        · push_neg at hg
          have hstep : tryCandidates env specific desired otherNode st (c :: rest) =
              acceptCandidate env specific desired st c c.v (env.clusterOf c.v) := by
            simp only [tryCandidates, hcont, not_true, if_false, if_pos hcu, if_neg
              (by push_neg; exact hg :
                ¬(c.v ∈ st.nodesTraversed ∨ env.dist c.v otherNode < env.dist c.u otherNode))]
          constructor
          · intro st' h
            rw [hstep] at h
            rcases acceptCandidate_moved_shape env specific desired st c c.v
              (env.clusterOf c.v) st' h with ⟨h1, h2, h3⟩
            have happ : (if c.v = c.v then c.u else c.v) = st.comingFrom := by
              simp [hcu]
            refine ⟨?_, ?_, ?_⟩
            · rw [h2, happ]
              exact hnd'
            · rw [h1, h2, happ]
              simp only [List.mem_append, List.mem_singleton, not_or]
              exact ⟨hg.1, fun hvc => hcuv (hcu.trans hvc.symm)⟩
            · intro e he
              rw [h3] at he
              simp only [if_pos rfl] at he
              have := mem_incidentTo env c.v e he
              rw [h1]
              exact this
          · intro cl lt nt ln ct h
            rw [hstep] at h
            rcases acceptCandidate_finished_shape env specific desired st c c.v
              (env.clusterOf c.v) cl lt nt ln ct h with ⟨_, h2⟩
            rw [h2]
            simp only [if_pos rfl, hcu]
            exact hnd'
      · have hcv : c.v = st.comingFrom := hcinc.resolve_left hcu
        by_cases hg : c.u ∈ st.nodesTraversed ∨ env.dist c.u otherNode < env.dist c.v otherNode
        · constructor
          · intro st' h
            simp only [tryCandidates, hcont, not_true, if_false, if_neg hcu, if_pos hg] at h
            cases h
          · intro cl lt nt ln ct h
            simp only [tryCandidates, hcont, not_true, if_false, if_neg hcu, if_pos hg] at h
            cases h
        · push_neg at hg
          have hstep : tryCandidates env specific desired otherNode st (c :: rest) =
              acceptCandidate env specific desired st c c.u (env.clusterOf c.u) := by
            simp only [tryCandidates, hcont, not_true, if_false, if_neg hcu, if_neg
              (by push_neg; exact hg :
                ¬(c.u ∈ st.nodesTraversed ∨ env.dist c.u otherNode < env.dist c.v otherNode))]
          have hvu : c.v ≠ c.u := fun hvu => hcuv hvu.symm
          have happ : (if c.v = c.u then c.u else c.v) = st.comingFrom := by
            rw [if_neg hvu]
            exact hcv
          constructor
          · intro st' h
            rw [hstep] at h
            rcases acceptCandidate_moved_shape env specific desired st c c.u
              (env.clusterOf c.u) st' h with ⟨h1, h2, h3⟩
            refine ⟨?_, ?_, ?_⟩
            · rw [h2, happ]
              exact hnd'
            · rw [h1, h2, happ]
              simp only [List.mem_append, List.mem_singleton, not_or]
              exact ⟨hg.1, fun huc => hcu (huc ▸ rfl)⟩
            · intro e he
              rw [h3] at he
              rw [if_neg hvu] at he
              have := mem_incidentTo env c.u e he
              rw [h1]
              exact this
          · intro cl lt nt ln ct h
            rw [hstep] at h
            rcases acceptCandidate_finished_shape env specific desired st c c.u
              (env.clusterOf c.u) cl lt nt ln ct h with ⟨_, h2⟩
            rw [h2, happ]
            exact hnd'
    · have hskip : tryCandidates env specific desired otherNode st (c :: rest) =
          tryCandidates env specific desired otherNode st rest := by
        simp only [tryCandidates, hcont]
        simp
      rw [hskip]
      exact ih hrest

lemma walkLoop_nodesTraversed_nodup (env : WalkEnv) (specific : Bool)
    (desired otherNode : ℕ) (distanceStart : ℚ)
    (hns : ∀ e ∈ env.edges, e.u ≠ e.v) :
    ∀ (fuel : ℕ) (st : WalkState) (res : WalkResult), WalkInv env st →
      walkLoop env specific desired otherNode distanceStart fuel st = some res →
      res.nodesTraversed.Nodup := by
  intro fuel
  induction fuel with
  | zero =>
    intro st res _ h
    cases h
  | succ n ih =>
    intro st res hInv h
    rcases hInv with ⟨hnd, hcf, hpm⟩
    unfold walkLoop at h
    by_cases hpmE : st.pm = []
    · rw [if_pos hpmE] at h
      cases h
    · rw [if_neg hpmE] at h
      by_cases hspec : specific = true ∧ env.cdist desired st.comingFrom > distanceStart
      · rw [if_pos hspec] at h
        cases h
      · rw [if_neg hspec] at h
        simp only at h
        set sorted := sortByKey (fun e => env.angle st.lastLine e.eid)
          (st.pm.filter (fun e => e.eid ≠ st.lastLine)) with hsortedDef
        by_cases hsE : sorted = []
        · rw [if_pos hsE] at h
          cases h
        · rw [if_neg hsE] at h
          have hsmem : ∀ e ∈ sorted, e ∈ env.edges ∧
              (e.u = st.comingFrom ∨ e.v = st.comingFrom) := by
            intro e he
            rw [hsortedDef, mem_sortByKey] at he
            exact hpm e (List.mem_of_mem_filter he)
          rcases htc : tryCandidates env specific desired otherNode st sorted with
            _ | st' | ⟨cl, lt, nt, ln, ct⟩
          · rw [htc] at h
            cases h
          · rw [htc] at h
            exact ih st' res
              ((tryCandidates_preserves_inv env specific desired otherNode st hns hnd hcf
                sorted hsmem).1 st' htc) h
          · rw [htc] at h
            have hntd : nt.Nodup :=
              (tryCandidates_preserves_inv env specific desired otherNode st hns hnd hcf
                sorted hsmem).2 cl lt nt ln ct htc
            cases h
            exact hntd

/-- C7: a successful `indirect_cluster` walk over an edge table with no
self-loop edges (the pipeline guarantee: `clean_network(..., self_loops=True)`
runs before clustering) returns a traversed-node list without duplicates. -/
theorem indirect_cluster_nodesTraversed_nodup (env : WalkEnv) (ixLine : ℕ)
    (searchDir : Dir) (specific : Bool) (desired : ℕ) (fuel : ℕ) (res : WalkResult)
    (hns : ∀ e ∈ env.edges, e.u ≠ e.v)
    (h : indirectCluster env ixLine searchDir specific desired fuel = some res) :
    res.nodesTraversed.Nodup := by
  unfold indirectCluster at h
  rcases hfind : env.edges.find? (fun e => e.eid = ixLine) with _ | e
  · rw [hfind] at h
    cases h
  · rw [hfind] at h
    refine walkLoop_nodesTraversed_nodup env specific desired _ _ hns fuel _ res ?_ h
    refine ⟨List.nodup_nil, by simp, ?_⟩
    intro x hx
    simp only [List.mem_filter] at hx
    exact mem_incidentTo env _ x hx.1

end SimplifyStreets

namespace SimplifyStreets

/-! ### Concrete walker instances

Small street networks used to falsify or witness the walker claims.  All
external functions are literal tables (realisable by actual planar
geometries; e.g. `distC1` is the Euclidean distance between collinear nodes
at x-coordinates 0, 10, 20). -/

/-- Distances for nodes 1, 2, 3 placed at x = 0, 10, 20 on a line. -/
def distC1 (a b : ℕ) : ℚ :=
  if a = b then 0
  else if (a = 1 ∧ b = 2) ∨ (a = 2 ∧ b = 1) then 10
  else if (a = 1 ∧ b = 3) ∨ (a = 3 ∧ b = 1) then 20
  else 10

/-- A two-edge chain 1—2—3 with node 3 in cluster 99; every pair of edges
counts as a continuation. -/
def envC1 : WalkEnv :=
  { edges := [⟨0, 1, 2⟩, ⟨1, 2, 3⟩]
    clusterOf := fun n => if n = 3 then some 99 else none
    dist := distC1
    cdist := fun _ _ => 0
    isCont := fun _ _ => true
    angle := fun _ _ => 0 }

/-- Walk state of `envC1` when standing at node 2 having entered along
edge 0, with edge 1 the only candidate. -/
def stC1 : WalkState :=
  { comingFrom := 2, lastLine := 0, pm := [⟨1, 2, 3⟩],
    nodesTraversed := [], linesTraversed := [], clustersTraversed := [] }

/-- C1 counterexample: walking edge 0 from node 2, the candidate edge 1 is
accepted and the walk succeeds, although the newly reached node 3 is
*farther* from `other_node` 1 than the current node 2 was
(`dist 3 1 = 20 > 10 = dist 2 1`).  The source accepts distance-increasing
steps and rejects distance-decreasing ones, the reverse of the claim. -/
theorem indirect_cluster_acceptance_guard_counterexample :
    tryCandidates envC1 false 0 1 stC1 [⟨1, 2, 3⟩] =
        .finished 99 [1] [2] 3 [] ∧
      indirectCluster envC1 0 Dir.v false 0 5 = some ⟨99, [1], [2], 3, []⟩ ∧
      envC1.dist 3 1 > envC1.dist 2 1 := by
  refine ⟨by decide, by decide, by decide⟩

/-- Witness for C1's amended theorem on `envC1`: the only candidate is
incident to the current node, and the accepted finishing step satisfies the
actual guard (no revisit, non-decreasing distance back to `other_node`). -/
theorem indirect_cluster_acceptance_guard_witness :
    (∀ e ∈ [Edge.mk 1 2 3], e.u = stC1.comingFrom ∨ e.v = stC1.comingFrom) ∧
      ((3 : ℕ) ∉ stC1.nodesTraversed ∧
        envC1.dist stC1.comingFrom 1 ≤ envC1.dist 3 1) :=
  ⟨by decide,
    (indirect_cluster_acceptance_guard envC1 false 0 1 stC1 [⟨1, 2, 3⟩]
      (by decide)).2 99 [1] [2] 3 [] (by decide)⟩

/-- Distances for nodes 1, 2, 3, 4 placed at x = 0, 10, 20, 30 on a line. -/
def distC3 (a b : ℕ) : ℚ :=
  if a = b then 0
  else if (a = 1 ∧ b = 2) ∨ (a = 2 ∧ b = 1) then 10
  else if (a = 1 ∧ b = 3) ∨ (a = 3 ∧ b = 1) then 20
  else if (a = 1 ∧ b = 4) ∨ (a = 4 ∧ b = 1) then 30
  else if (a = 2 ∧ b = 4) ∨ (a = 4 ∧ b = 2) then 20
  else 10

/-- Distance from the target cluster's polygon: 5 from nodes 2 and 3 alike
(e.g. a rectangle over x ∈ [10, 20] at height 5 above the chain). -/
def cdistC3 (_c n : ℕ) : ℚ :=
  if n = 2 then 5 else if n = 3 then 5 else 0

/-- A three-edge chain 1—2—3—4 with node 4 in the desired cluster 50, which
is equally far (distance 5) from nodes 2 and 3. -/
def envC3 : WalkEnv :=
  { edges := [⟨0, 1, 2⟩, ⟨1, 2, 3⟩, ⟨2, 3, 4⟩]
    clusterOf := fun n => if n = 4 then some 50 else none
    dist := distC3
    cdist := cdistC3
    isCont := fun _ _ => true
    angle := fun _ _ => 0 }

/-- C3 counterexample: a targeted walk (desired cluster 50) succeeds even
though its step from node 2 to node 3 does not bring it strictly closer to
the target cluster (`cdist 50 3 = cdist 50 2 = 5`): the source only fails
when the current distance strictly exceeds the *initial* distance
`distance_start`, not when the distance stops decreasing. -/
theorem indirect_cluster_targeted_failure_counterexample :
    indirectCluster envC3 0 Dir.v true 50 5 = some ⟨50, [1, 2], [2, 3], 4, []⟩ ∧
      envC3.cdist 50 3 = envC3.cdist 50 2 := by
  refine ⟨by decide, by decide⟩

/-- Witness for C3's amended theorem: standing at node 3 with
`distance_start = 4 < 5 = cdist 50 3`, the walk loop fails immediately. -/
theorem indirect_cluster_targeted_failure_witness :
    envC3.cdist 50 3 > 4 ∧
      walkLoop envC3 true 50 1 4 (2 + 1)
        { comingFrom := 3, lastLine := 1, pm := [⟨2, 3, 4⟩],
          nodesTraversed := [2], linesTraversed := [1], clustersTraversed := [] } = none :=
  ⟨by decide,
    indirect_cluster_targeted_failure envC3 50 1 4 2
      { comingFrom := 3, lastLine := 1, pm := [⟨2, 3, 4⟩],
        nodesTraversed := [2], linesTraversed := [1], clustersTraversed := [] }
      (by decide)⟩

/-- A two-edge chain 1—2—3 with node 3 in cluster 77 and no self-loops. -/
def envC7 : WalkEnv :=
  { edges := [⟨0, 1, 2⟩, ⟨1, 2, 3⟩]
    clusterOf := fun n => if n = 3 then some 77 else none
    dist := distC1
    cdist := fun _ _ => 0
    isCont := fun _ _ => true
    angle := fun _ _ => 0 }

/-- Witness for C7 on `envC7`: the edge table has no self-loops, the walk
succeeds, and the returned traversed-node list is duplicate-free. -/
theorem indirect_cluster_nodesTraversed_nodup_witness :
    (∀ e ∈ envC7.edges, e.u ≠ e.v) ∧
      (WalkResult.mk 77 [1] [2] 3 []).nodesTraversed.Nodup :=
  ⟨by decide,
    indirect_cluster_nodesTraversed_nodup envC7 0 Dir.v false 0 5
      ⟨77, [1], [2], 3, []⟩ (by decide) (by decide)⟩

/-- Distances with node 4 closer to node 1 than node 2 is (so stepping from
node 2 to node 4 counts as backtracking). -/
def distC10 (a b : ℕ) : ℚ :=
  if a = b then 0
  else if (a = 1 ∧ b = 2) ∨ (a = 2 ∧ b = 1) then 10
  else if (a = 1 ∧ b = 4) ∨ (a = 4 ∧ b = 1) then 5
  else 10

/-- Node 2 carries two candidates after entering along edge 0: edge 1
(smaller deflection angle 5 but not a continuation) and edge 2 (angle 9,
a continuation whose far node 4 lies back toward node 1). -/
def envC10 : WalkEnv :=
  { edges := [⟨0, 1, 2⟩, ⟨1, 2, 3⟩, ⟨2, 2, 4⟩]
    clusterOf := fun _ => none
    dist := distC10
    cdist := fun _ _ => 0
    isCont := fun _ b => b = 2
    angle := fun _ b => if b = 1 then 5 else if b = 2 then 9 else 0 }

/-- Walk state of `envC10` at node 2, entered along edge 0. -/
def stC10 : WalkState :=
  { comingFrom := 2, lastLine := 0, pm := [⟨1, 2, 3⟩, ⟨2, 2, 4⟩],
    nodesTraversed := [], linesTraversed := [], clustersTraversed := [] }

/-- Witness for C10 on `envC10`: in ascending-angle order edge 1 (failing the
continuation test) is skipped, edge 2 is the first continuation, its
anti-backtracking guard fails (`dist 4 1 = 5 < 10 = dist 2 1`), and the
whole walk returns the null sentinel without trying anything else. -/
theorem indirect_cluster_first_passing_candidate_guard_fails_witness :
    (sortByKey (fun e => envC10.angle stC10.lastLine e.eid)
        (stC10.pm.filter (fun e => e.eid ≠ stC10.lastLine)) =
      [Edge.mk 1 2 3] ++ Edge.mk 2 2 4 :: []) ∧
      (∀ x ∈ [Edge.mk 1 2 3], envC10.isCont stC10.lastLine x.eid = false) ∧
      envC10.isCont stC10.lastLine (Edge.mk 2 2 4).eid = true ∧
      walkLoop envC10 false 0 1 0 (4 + 1) stC10 = none :=
  ⟨by decide, by decide, by decide,
    indirect_cluster_first_passing_candidate_guard_fails envC10 false 0 1 0 4 stC10
      [Edge.mk 1 2 3] (Edge.mk 2 2 4) [] (by decide) (by decide) (by decide) (by decide)⟩

end SimplifyStreets

namespace SimplifyStreets

/-! ## DualLineDissolver core (`center_line_cluster`, `dissolve_dual_lines`,
`dissolve_multiple_dual_lines`, source lines 237-417)

Geometry is a coordinate list; the external shapely/utility operations
(`length`, `centroid`, point distance, `center_line_coords`,
`interpolate(0.5, normalized=True)`) and the coordinate tables
(`nodes_gdf`/`clusters_gdf` `x`/`y` columns) are environment parameters.
Street names are compared only for equality, so they are modelled as
numeric identifiers. -/

/-- A `LineString`: its ordered coordinate list. -/
structure Geom where
  coords : List (ℚ × ℚ)
deriving DecidableEq, Repr

/-- Environment of the dissolve functions: external geometry collaborators
plus the node/cluster coordinate tables. -/
structure DissolveEnv where
  glength : Geom → ℚ
  centroid : Geom → ℚ × ℚ
  pdist : ℚ × ℚ → ℚ × ℚ → ℚ
  centerLineCoords : Geom → Geom → List (ℚ × ℚ)
  midpoint : Geom → ℚ × ℚ
  nodeXY : ℕ → ℚ × ℚ
  clusterXY : ℕ → ℚ × ℚ

/-- Assignment `coords[0] = p` (a no-op on an empty list, where the source would raise). -/
def setFirst (l : List (ℚ × ℚ)) (p : ℚ × ℚ) : List (ℚ × ℚ) :=
  match l with
  | [] => []
  | _ :: t => p :: t

/-- Assignment `coords[-1] = p` (a no-op on an empty list, where the source would raise). -/
def setLast (l : List (ℚ × ℚ)) (p : ℚ × ℚ) : List (ℚ × ℚ) :=
  (setFirst l.reverse p).reverse

/-- Function `center_line_cluster` (source lines 237-276): `None` when the two
polylines' centroids are more than 100 units apart; otherwise the external
centerline with its endpoints snapped to the `from`/`to` coordinates
(node coordinates for `cluster_from` when `one_cluster`, cluster centroids
otherwise). -/
def center_line_cluster (env : DissolveEnv) (line_geometries : List Geom)
    (cluster_from cluster_to : ℕ) (one_cluster : Bool) : Option Geom :=
  let gA := line_geometries.headD ⟨[]⟩
  let gB := (line_geometries.drop 1).headD ⟨[]⟩
  if env.pdist (env.centroid gA) (env.centroid gB) > 100 then none
  else
    let coord_from := if one_cluster then env.nodeXY cluster_from
                      else env.clusterXY cluster_from
    let coord_to := env.clusterXY cluster_to
    some ⟨setLast (setFirst (env.centerLineCoords gA gB) coord_from) coord_to⟩

/-- The staggered-offset guard of `dissolve_dual_lines`
(source lines 296-305).  Note the source's first comparison is
`d(A[0], A[0]) > d(A[0], B[-1])`, i.e. `0 > distance`, so with a genuine
metric the `else` branch (start-start / end-end distances) is always taken;
the comparison is embedded as written. -/
def staggerFails (env : DissolveEnv) (gA gB : Geom) : Bool :=
  let a0 := gA.coords.headD (0, 0)
  let aL := gA.coords.getLastD (0, 0)
  let b0 := gB.coords.headD (0, 0)
  let bL := gB.coords.getLastD (0, 0)
  let dd := if env.pdist a0 a0 > env.pdist a0 bL
            then (env.pdist a0 bL, env.pdist aL b0)
            else (env.pdist a0 b0, env.pdist aL bL)
  decide (dd.1 > dd.2 * 1.5 ∨ dd.2 > dd.1 * 1.5)

/-- What a successful two-line dissolution does to the surviving edge:
either the interpolation routine is invoked (paths through intermediate
nodes) or the surviving edge's geometry is replaced and `new_geo` set. -/
inductive DissolveOut where
  | interpolated
  | newGeo (g : Geom)
deriving DecidableEq, Repr

/-- Function `dissolve_dual_lines` (source lines 278-325).  `none` models the
source's `return None` (no merge performed, edge table untouched). -/
def dissolve_dual_lines (env : DissolveEnv) (nameA nameB : Option ℕ)
    (gA gB : Geom) (cluster goal first_node : ℕ) (nodes_traversed : List ℕ)
    (direction : Dir) (one_cluster : Bool) : Option DissolveOut :=
  let interpolation := nodes_traversed ≠ []
  if one_cluster = false ∧ nameA ≠ none ∧ nameB ≠ none ∧ nameA ≠ nameB then none
  else if env.glength gA > env.glength gB * 1.5 ∨ env.glength gB > env.glength gA * 1.5 then
    none
  else if one_cluster = false ∧ staggerFails env gA gB then none
  else
    let cl := if one_cluster then center_line_cluster env [gA, gB] first_node goal true
              else center_line_cluster env [gA, gB] cluster goal false
    match cl with
    | none => none
    | some clg =>
      let clg' := if direction = Dir.u ∧ ¬interpolation then Geom.mk clg.coords.reverse
                  else clg
      if interpolation then some .interpolated else some (.newGeo clg')

/-- The cumulative midpoint distance of one bundle member against the others
(`dissolve_multiple_dual_lines`, source lines 347-356): members are skipped
by key equality, the distance is between the `0.5`-interpolated midpoints. -/
def cumulativeMid (env : DissolveEnv) (lines : List (ℕ × Geom)) (k : ℕ) (g : Geom) : ℚ :=
  (lines.filter (fun p => p.1 ≠ k)).foldl
    (fun acc p => acc + env.pdist (env.midpoint g) (env.midpoint p.2)) 0

/-- Stable insertion into a `(key, meanDistance)` list sorted ascending by
the distance (python's stable `sorted(..., key=item[1])`). -/
def insertPairByVal (e : ℕ × ℚ) : List (ℕ × ℚ) → List (ℕ × ℚ)
  | [] => [e]
  | x :: xs => if e.2 ≤ x.2 then e :: x :: xs else x :: insertPairByVal e xs

/-- Stable ascending sort of `(key, meanDistance)` pairs by distance. -/
def sortPairsByVal : List (ℕ × ℚ) → List (ℕ × ℚ)
  | [] => []
  | x :: xs => insertPairByVal x (sortPairsByVal xs)

/-- One pass of the bundle-reduction loop (source lines 346-362 / 374-390):
compute each member's mean midpoint distance to the rest, sort ascending,
and delete the two members with the greatest mean distance. -/
def reduceStep (env : DissolveEnv) (lines : List (ℕ × Geom)) : List (ℕ × Geom) :=
  let distances := lines.map (fun p => (p.1, cumulativeMid env lines p.1 p.2 / lines.length))
  let sortedD := sortPairsByVal distances
  let toRemove := (sortedD.map Prod.fst).drop (sortedD.length - 2)
  lines.filter (fun p => p.1 ∉ toRemove)

/-- The `while len(dict_lines) > target` reduction loop, run with fuel
(`lines.length` at the call sites, ample since each pass removes two
members). -/
def reduceLoop (env : DissolveEnv) (target : ℕ) : ℕ → List (ℕ × Geom) → List (ℕ × Geom)
  | 0, lines => lines
  | fuel + 1, lines =>
    if lines.length > target then reduceLoop env target fuel (reduceStep env lines)
    else lines

/-- The secondary-pair scan of the odd branch (source lines 392-401):
over all ordered key-distinct pairs, in iteration order, track the pair of
strictly greatest midpoint distance (starting from `max_dist = 0`). -/
def secondaryScan (env : DissolveEnv) (lines : List (ℕ × Geom)) : ℚ × List ℕ :=
  lines.foldl
    (fun acc p =>
      lines.foldl
        (fun acc2 q =>
          if p.1 = q.1 then acc2
          else
            let d := env.pdist (env.midpoint p.2) (env.midpoint q.2)
            if d > acc2.1 then (d, [p.1, q.1]) else acc2)
        acc)
    (0, [])

/-- The pair-skipping length-ratio guard of `dissolve_multiple_dual_lines`
(source lines 337-342): members whose *geometries* compare equal are
skipped (shapely `==`); any remaining ordered pair with
`length > other.length * 1.5` aborts the merge. -/
def hasLengthViolation (env : DissolveEnv) (lines : List (ℕ × Geom)) : Bool :=
  lines.any (fun p => lines.any (fun q =>
    decide (p.2 ≠ q.2 ∧ env.glength p.2 > env.glength q.2 * 1.5)))

/-- Outcome of `dissolve_multiple_dual_lines`: the geometry stored for the
survivor is optional because the even branch stores the raw result of
`center_line_cluster`, which the source does not re-check for `None`
(a `None` centerline would be written, or crash the `direction == 'u'`
reversal; the embedding maps the reversal over the option). -/
inductive DissolveMultiOut where
  | interpolated
  | newGeo (g : Option Geom)
deriving DecidableEq, Repr

/-- Function `dissolve_multiple_dual_lines` (source lines 328-417). -/
def dissolve_multiple_dual_lines (env : DissolveEnv) (lines : List (ℕ × Geom))
    (cluster goal first_node : ℕ) (nodes_traversed : List ℕ)
    (direction : Dir) (one_cluster : Bool) : Option DissolveMultiOut :=
  let interpolation := nodes_traversed ≠ []
  if hasLengthViolation env lines then none
  else
    let cl : Option Geom :=
      if lines.length % 2 = 0 then
        let reduced := reduceLoop env 2 lines.length lines
        let line_geometries := reduced.map Prod.snd
        if one_cluster then center_line_cluster env line_geometries first_node goal true
        else center_line_cluster env line_geometries cluster goal false
      else
        let reduced := reduceLoop env 3 lines.length lines
        let secondary_lines := (secondaryScan env reduced).2
        let ix_central := ((reduced.map Prod.fst).filter
          (fun x => x ∉ secondary_lines)).headD 0
        some (((reduced.filter (fun p => p.1 = ix_central)).headD (0, ⟨[]⟩)).2)
    let cl' := if direction = Dir.u ∧ ¬interpolation
               then cl.map (fun g => Geom.mk g.coords.reverse)
               else cl
    if interpolation then some .interpolated else some (.newGeo cl')

end SimplifyStreets

namespace SimplifyStreets

/-- C6: whenever one bundle member's length exceeds 1.5 times another
member's length, both `dissolve_dual_lines` (for the 2-member members
`gA`, `gB`) and `dissolve_multiple_dual_lines` (for a bundle containing
them) return the null sentinel: no merge is performed and no geometry is
written.  The nonnegativity hypothesis records that shapely lengths are
nonnegative (needed because the multi-line guard skips geometrically equal
members, which can never violate the ratio for nonnegative lengths). -/
theorem dissolve_length_ratio_guard (env : DissolveEnv)
    (hnn : ∀ g : Geom, 0 ≤ env.glength g)
    (nameA nameB : Option ℕ) (gA gB : Geom) (cluster goal first_node : ℕ)
    (nodes_traversed : List ℕ) (direction : Dir) (one_cluster : Bool)
    (lines : List (ℕ × Geom))
    (hmemA : gA ∈ lines.map Prod.snd) (hmemB : gB ∈ lines.map Prod.snd)
    (hviol : env.glength gA > env.glength gB * 1.5 ∨
      env.glength gB > env.glength gA * 1.5) :
    dissolve_dual_lines env nameA nameB gA gB cluster goal first_node
        nodes_traversed direction one_cluster = none ∧
      dissolve_multiple_dual_lines env lines cluster goal first_node
        nodes_traversed direction one_cluster = none := by
  constructor
  · unfold dissolve_dual_lines
    by_cases hname : one_cluster = false ∧ nameA ≠ none ∧ nameB ≠ none ∧ nameA ≠ nameB
    · rw [if_pos hname]
    · rw [if_neg hname, if_pos hviol]
  · have hne : gA ≠ gB := by
      intro hEq
      have hA := hnn gA
      rcases hviol with h | h
      · rw [hEq] at h
        nlinarith [hnn gB]
      · rw [hEq] at h
        nlinarith [hnn gB]
    rcases List.mem_map.1 hmemA with ⟨pa, hpa, hpa2⟩
    rcases List.mem_map.1 hmemB with ⟨pb, hpb, hpb2⟩
    have hlv : hasLengthViolation env lines = true := by
      unfold hasLengthViolation
      rw [List.any_eq_true]
      rcases hviol with h | h
      · refine ⟨pa, hpa, ?_⟩
        rw [List.any_eq_true]
        refine ⟨pb, hpb, ?_⟩
        rw [decide_eq_true_eq]
        rw [hpa2, hpb2]
        exact ⟨hne, h⟩
      · refine ⟨pb, hpb, ?_⟩
        rw [List.any_eq_true]
        refine ⟨pa, hpa, ?_⟩
        rw [decide_eq_true_eq]
        rw [hpa2, hpb2]
        exact ⟨fun hba => hne hba.symm, h⟩
    unfold dissolve_multiple_dual_lines
    simp only [hlv, if_true]

/-- Geometry lengths for the C6 witness: ten units per stored coordinate. -/
def glenC6 (g : Geom) : ℚ := (g.coords.length : ℚ) * 10

/-- Concrete dissolve environment for the C6 witness. -/
def envC6 : DissolveEnv :=
  { glength := glenC6
    centroid := fun _ => (0, 0)
    pdist := fun _ _ => 0
    centerLineCoords := fun _ _ => []
    midpoint := fun _ => (0, 0)
    nodeXY := fun _ => (0, 0)
    clusterXY := fun _ => (0, 0) }

/-- A three-coordinate line (modelled length 30). -/
def gC6A : Geom := ⟨[(0, 0), (1, 0), (2, 0)]⟩

/-- A one-coordinate line (modelled length 10). -/
def gC6B : Geom := ⟨[(0, 1)]⟩

/-- Witness for C6: `30 > 10 · 1.5`, so both dissolve functions refuse the
bundle `{gC6A, gC6B}`. -/
theorem dissolve_length_ratio_guard_witness :
    (envC6.glength gC6A > envC6.glength gC6B * 1.5 ∨
        envC6.glength gC6B > envC6.glength gC6A * 1.5) ∧
      dissolve_dual_lines envC6 none none gC6A gC6B 1 2 3 [] Dir.v false = none ∧
      dissolve_multiple_dual_lines envC6 [(1, gC6A), (2, gC6B)] 1 2 3 [] Dir.v false =
        none := by
  have hviol : envC6.glength gC6A > envC6.glength gC6B * 1.5 ∨
      envC6.glength gC6B > envC6.glength gC6A * 1.5 := by
    left
    show glenC6 gC6A > glenC6 gC6B * 1.5
    unfold glenC6 gC6A gC6B
    norm_num
  have happ := dissolve_length_ratio_guard envC6
    (fun g => by
      show (0 : ℚ) ≤ glenC6 g
      unfold glenC6
      positivity)
    none none gC6A gC6B 1 2 3 [] Dir.v false [(1, gC6A), (2, gC6B)]
    (by simp) (by simp) hviol
  exact ⟨hviol, happ.1, happ.2⟩

end SimplifyStreets

namespace SimplifyStreets

/-! ## Node-based dissolution pass: bundle admission
(`simplify_dual_lines_nodes_to_cluster`, source lines 694-728)

For an anchor node and a goal cluster, the pass collects the edges touching
the node (line 695), keeps those with `goal` among their four cluster fields
(line 711), orients those entering through `v` (lines 713-726), and keeps
the ones whose oriented `clus_v`/`clus_vR` equals the goal (line 728).
No continuation test appears anywhere in this pass: `is_possible_dual`
(source lines 419-436), whose `one_cluster` branch holds the
fail-the-continuation-test guard, is invoked only by the cluster-based pass
(source line 481). -/

/-- An edge row of the dissolution passes: endpoints plus the four direct /
reachable cluster fields.  Geometry is irrelevant to bundle admission and
omitted (orientation only reverses it). -/
structure DEdge where
  eid : ℕ
  u : ℕ
  v : ℕ
  clus_u : Option ℕ
  clus_v : Option ℕ
  clus_uR : Option ℕ
  clus_vR : Option ℕ
deriving DecidableEq, Repr

/-- Source lines 713-726: a candidate whose `v` end is the anchor node is
re-oriented so that its `u` end is the anchor (endpoints and cluster fields
swapped). -/
def orientToNode (n : ℕ) (e : DEdge) : DEdge :=
  if e.v = n then
    { e with u := e.v, v := e.u, clus_u := e.clus_v, clus_v := e.clus_u,
             clus_uR := e.clus_vR, clus_vR := e.clus_uR }
  else e

/-- The bundle admitted by the node-based pass for anchor node `n` and goal
cluster `goal` (source lines 695, 711-728). -/
def nodePassBundle (edges : List DEdge) (n goal : ℕ) : List DEdge :=
  let tmp := edges.filter (fun e => e.u = n ∨ e.v = n)
  let cand := tmp.filter (fun e => e.clus_u = some goal ∨ e.clus_uR = some goal ∨
    e.clus_v = some goal ∨ e.clus_vR = some goal)
  let oriented := cand.map (orientToNode n)
  oriented.filter (fun e => e.clus_v = some goal ∨ e.clus_vR = some goal)

/-- C5 as claimed: relative to a continuation predicate `cont`, any two
distinct edges admitted to the same node-pass bundle fail the continuation
test against each other. -/
def nodePassRequiresFailingContinuation (cont : ℕ → ℕ → Bool) : Prop :=
  ∀ (edges : List DEdge) (n goal : ℕ) (a b : DEdge),
    a ∈ nodePassBundle edges n goal → b ∈ nodePassBundle edges n goal →
    a.eid ≠ b.eid → cont a.eid b.eid = false

/-- Two parallel edges out of node 5, both reaching cluster 50 directly. -/
def edgesC5 : List DEdge :=
  [⟨10, 5, 6, none, some 50, none, none⟩,
   ⟨11, 5, 7, none, some 50, none, none⟩]

/-- C5 counterexample: the node-based pass never consults the continuation
test — with a continuation predicate declaring edges 10 and 11
continuations of each other, both are still admitted to the same bundle for
anchor node 5 and goal 50. -/
theorem nodePassBundle_continuation_counterexample :
    ¬ nodePassRequiresFailingContinuation (fun _ _ => true) := by
  intro h
  have h10 : (⟨10, 5, 6, none, some 50, none, none⟩ : DEdge) ∈
      nodePassBundle edgesC5 5 50 := by decide
  have h11 : (⟨11, 5, 7, none, some 50, none, none⟩ : DEdge) ∈
      nodePassBundle edgesC5 5 50 := by decide
  have := h edgesC5 5 50 _ _ h10 h11 (by decide)
  simp at this

/-- C5 (amended): in the node-based pass, a candidate sharing the anchor
node is admitted to the bundle iff, after orientation towards the anchor,
its `clus_v` or `clus_vR` equals the goal (having it among the four cluster
fields pre-orientation); no continuation test is applied — the bundle does
not depend on any continuation predicate. -/
theorem nodePassBundle_mem_iff (edges : List DEdge) (n goal : ℕ) (e : DEdge) :
    e ∈ nodePassBundle edges n goal ↔
      ∃ e0, e0 ∈ edges ∧ (e0.u = n ∨ e0.v = n) ∧
        (e0.clus_u = some goal ∨ e0.clus_uR = some goal ∨
          e0.clus_v = some goal ∨ e0.clus_vR = some goal) ∧
        e = orientToNode n e0 ∧
        (e.clus_v = some goal ∨ e.clus_vR = some goal) := by
  simp only [nodePassBundle, List.mem_filter, List.mem_map, decide_eq_true_eq]
  constructor
  · rintro ⟨⟨a, ⟨⟨ha, hinc⟩, hreach⟩, horient⟩, hv⟩
    exact ⟨a, ha, hinc, hreach, horient.symm, hv⟩
  · rintro ⟨a, ha, hinc, hreach, he, hv⟩
    exact ⟨⟨a, ⟨⟨ha, hinc⟩, hreach⟩, he.symm⟩, hv⟩

end SimplifyStreets


namespace SimplifyStreets

/-! ## Pedestrian-flag propagation on bundle commit
(`simplify_dual_lines`, source lines 658-664; the node-based pass repeats
the same pattern at lines 791-796)

After a successful dissolution the source executes

    between  = list(set(between + lines_traversed + ix_lines))
    to_drop  = to_drop + between
    to_drop  = list(filter(lambda a: a != ix_lines[0], to_drop))
    processed = processed + [ix_lines[0]] + to_drop
    if len(original_edges_gdf.loc[processed][original_edges_gdf.pedestrian == 1]) > 0:
        edges_gdf.at[ix_lines[0], 'pedestrian'] = 1

with `to_drop` and `processed` *cumulative across all bundles of the pass*.
The fold below embeds exactly this bookkeeping, one step per successfully
dissolved bundle; the decision whether a bundle dissolves is upstream
geometry and is taken as input. -/

/-- A successfully dissolved bundle: the surviving edge id (`ix_lines[0]`)
and the other ids put into `between` for it (removed members, traversed
lines, in-between edges). -/
structure Bundle where
  survivor : ℕ
  others : List ℕ
deriving DecidableEq, Repr

/-- All edge ids of one bundle (`between ∪ ix_lines`, survivor included). -/
def bundleMembers (b : Bundle) : List ℕ :=
  b.survivor :: b.others

/-- The cumulative pass state: `processed`, `to_drop` and the current
pedestrian column of `edges_gdf` (initially the original flags). -/
structure PassState where
  processed : List ℕ
  toDrop : List ℕ
  ped : ℕ → Bool

/-- One bundle commit (source lines 658-664): extend the cumulative
`to_drop` by the bundle's members, filter the current survivor out of it,
extend `processed` by the survivor and the new `to_drop`, and set the
survivor's pedestrian flag when any *processed* edge (of any bundle so far)
was originally pedestrian. -/
def commitStep (origPed : ℕ → Bool) (st : PassState) (b : Bundle) : PassState :=
  { processed := st.processed ++ [b.survivor] ++
      (st.toDrop ++ bundleMembers b).filter (fun a => a ≠ b.survivor)
    toDrop := (st.toDrop ++ bundleMembers b).filter (fun a => a ≠ b.survivor)
    ped := if (st.processed ++ [b.survivor] ++
        (st.toDrop ++ bundleMembers b).filter (fun a => a ≠ b.survivor)).any origPed then
        fun e => if e = b.survivor then true else st.ped e
      else st.ped }

/-- The whole bundle-commit bookkeeping of one dissolution pass. -/
def commitPass (origPed : ℕ → Bool) (bundles : List Bundle) : PassState :=
  bundles.foldl (commitStep origPed) ⟨[], [], origPed⟩

/-- Edge ids of every bundle up to (and including) the `i`-th. -/
def membersThrough (bundles : List Bundle) (i : ℕ) : List ℕ :=
  ((bundles.take (i + 1)).map bundleMembers).flatten

/-- Original pedestrian flags for the C2 counterexample: only edge 2. -/
def origPedC2 : ℕ → Bool := fun e => e = 2

/-- Two disjoint bundles: bundle 0 = survivor 1 with removed member 2
(pedestrian), bundle 1 = survivor 3 with removed member 4 (no pedestrian
member at all). -/
def bundlesC2 : List Bundle := [⟨1, [2]⟩, ⟨3, [4]⟩]

/-- C2 counterexample: after both bundles commit, the second survivor
(edge 3) carries `pedestrian = 1` although no member of its own bundle
(edges 3, 4) was pedestrian — the check runs over the cumulative
`processed` list, so edge 2 of the first, unrelated bundle forces the
flag. -/
theorem pedestrian_flag_counterexample :
    (commitPass origPedC2 bundlesC2).ped 3 = true ∧
      (bundleMembers ⟨3, [4]⟩).any origPedC2 = false := by
  refine ⟨by decide, by decide⟩

lemma commitStep_ped_ne (origPed : ℕ → Bool) (st : PassState) (b : Bundle)
    (s : ℕ) (hs : s ≠ b.survivor) :
    (commitStep origPed st b).ped s = st.ped s := by
  show (if _ then fun e => if e = b.survivor then true else st.ped e else st.ped) s = _
  split
  · simp only [if_neg hs]
  · rfl

lemma commitStep_ped_survivor (origPed : ℕ → Bool) (st : PassState) (b : Bundle) :
    (commitStep origPed st b).ped b.survivor =
      ((commitStep origPed st b).processed.any origPed || st.ped b.survivor) := by
  have hproc : (commitStep origPed st b).processed =
      st.processed ++ [b.survivor] ++
        (st.toDrop ++ bundleMembers b).filter (fun a => a ≠ b.survivor) := rfl
  rw [hproc]
  by_cases h : ((st.processed ++ [b.survivor] ++
      (st.toDrop ++ bundleMembers b).filter (fun a => a ≠ b.survivor)).any origPed) = true
  · rw [h, Bool.true_or]
    show (if (st.processed ++ [b.survivor] ++
        (st.toDrop ++ bundleMembers b).filter (fun a => a ≠ b.survivor)).any origPed = true
      then fun e => if e = b.survivor then true else st.ped e else st.ped) b.survivor = true
    rw [if_pos h]
    show (if b.survivor = b.survivor then true else st.ped b.survivor) = true
    rw [if_pos rfl]
  · rw [Bool.not_eq_true] at h
    rw [h, Bool.false_or]
    show (if (st.processed ++ [b.survivor] ++
        (st.toDrop ++ bundleMembers b).filter (fun a => a ≠ b.survivor)).any origPed = true
      then fun e => if e = b.survivor then true else st.ped e else st.ped) b.survivor =
      st.ped b.survivor
    rw [h, if_neg Bool.false_ne_true]

lemma commitFold_ped_not_survivor (origPed : ℕ → Bool) :
    ∀ (bs : List Bundle) (st : PassState) (s : ℕ),
      s ∉ bs.map Bundle.survivor →
      (bs.foldl (commitStep origPed) st).ped s = st.ped s := by
  intro bs
  induction bs with
  | nil => intro st s _; rfl
  | cons b rest ih =>
    intro st s hs
    rw [List.map_cons, List.mem_cons] at hs
    push_neg at hs
    rw [List.foldl_cons, ih (commitStep origPed st b) s hs.2,
      commitStep_ped_ne origPed st b s hs.1]

lemma any_congr_mem (p : ℕ → Bool) (l1 l2 : List ℕ) (h : ∀ x, x ∈ l1 ↔ x ∈ l2) :
    l1.any p = l2.any p := by
  rw [Bool.eq_iff_iff, List.any_eq_true, List.any_eq_true]
  constructor
  · rintro ⟨x, hx, hp⟩
    exact ⟨x, (h x).mp hx, hp⟩
  · rintro ⟨x, hx, hp⟩
    exact ⟨x, (h x).mpr hx, hp⟩

lemma commitStep_processed_mem (origPed : ℕ → Bool) (st : PassState) (b : Bundle)
    (M : List ℕ) (h1 : ∀ x, x ∈ st.processed ↔ x ∈ M)
    (h2 : ∀ x ∈ st.toDrop, x ∈ M) :
    (∀ x, x ∈ (commitStep origPed st b).processed ↔ x ∈ M ++ bundleMembers b) ∧
      (∀ x ∈ (commitStep origPed st b).toDrop, x ∈ M ++ bundleMembers b) := by
  have htd : ∀ x ∈ (st.toDrop ++ bundleMembers b).filter (fun a => a ≠ b.survivor),
      x ∈ M ++ bundleMembers b := by
    intro x hx
    rw [List.mem_filter, List.mem_append] at hx
    rw [List.mem_append]
    rcases hx.1 with h | h
    · exact Or.inl (h2 x h)
    · exact Or.inr h
  constructor
  · intro x
    show x ∈ st.processed ++ [b.survivor] ++ _ ↔ _
    rw [List.mem_append, List.mem_append, List.mem_append]
    constructor
    · rintro ((h | h) | h)
      · exact Or.inl ((h1 x).mp h)
      · rw [List.mem_singleton] at h
        exact Or.inr (h ▸ List.mem_cons_self _ _)
      · rw [← List.mem_append]
        exact htd x h
    · rintro (h | h)
      · exact Or.inl (Or.inl ((h1 x).mpr h))
      · rcases List.mem_cons.mp h with h' | h'
        · exact Or.inl (Or.inr (by rw [List.mem_singleton]; exact h'))
        · by_cases hxs : x = b.survivor
          · exact Or.inl (Or.inr (by rw [List.mem_singleton]; exact hxs))
          · refine Or.inr ?_
            rw [List.mem_filter]
            refine ⟨?_, by simpa using hxs⟩
            rw [List.mem_append]
            exact Or.inr (List.mem_cons_of_mem _ h')
  · exact htd

lemma membersThrough_cons_zero (b : Bundle) (rest : List Bundle) :
    membersThrough (b :: rest) 0 = bundleMembers b ++ [] := by
  simp [membersThrough]

lemma membersThrough_cons_succ (b : Bundle) (rest : List Bundle) (j : ℕ) :
    membersThrough (b :: rest) (j + 1) = bundleMembers b ++ membersThrough rest j := by
  simp [membersThrough, List.take_succ_cons]

lemma commitFold_ped_general (origPed : ℕ → Bool) :
    ∀ (bs : List Bundle) (M : List ℕ) (st : PassState),
      (∀ x, x ∈ st.processed ↔ x ∈ M) → (∀ x ∈ st.toDrop, x ∈ M) →
      (bs.map Bundle.survivor).Nodup →
      ∀ (i : ℕ) (hi : i < bs.length),
        (bs.foldl (commitStep origPed) st).ped (bs.get ⟨i, hi⟩).survivor =
          ((M ++ membersThrough bs i).any origPed || st.ped (bs.get ⟨i, hi⟩).survivor) := by
  intro bs
  induction bs with
  | nil =>
    intro M st _ _ _ i hi
    exact absurd hi (Nat.not_lt_zero i)
  | cons b rest ih =>
    intro M st h1 h2 hnd i hi
    rw [List.map_cons, List.nodup_cons] at hnd
    rcases commitStep_processed_mem origPed st b M h1 h2 with ⟨h1', h2'⟩
    have hany : ((commitStep origPed st b).processed.any origPed) =
        ((M ++ bundleMembers b).any origPed) :=
      any_congr_mem origPed _ _ h1'
    cases i with
    | zero =>
      rw [List.foldl_cons]
      have hget : (b :: rest).get ⟨0, hi⟩ = b := rfl
      rw [hget]
      rw [commitFold_ped_not_survivor origPed rest (commitStep origPed st b)
        b.survivor hnd.1]
      rw [membersThrough_cons_zero, List.append_nil]
      rw [commitStep_ped_survivor origPed st b, hany]
    | succ j =>
      rw [List.foldl_cons]
      have hj : j < rest.length := Nat.lt_of_succ_lt_succ hi
      have hget : (b :: rest).get ⟨j + 1, hi⟩ = rest.get ⟨j, hj⟩ := rfl
      rw [hget]
      rw [ih (M ++ bundleMembers b) (commitStep origPed st b) h1' h2' hnd.2 j hj]
      have hs : (rest.get ⟨j, hj⟩).survivor ≠ b.survivor := by
        intro hEq
        exact hnd.1 (hEq ▸ List.mem_map_of_mem Bundle.survivor (rest.get_mem j hj))
      rw [commitStep_ped_ne origPed st b _ hs, membersThrough_cons_succ,
        List.append_assoc]

/-- C2 (amended): after the pass, a bundle's surviving edge carries
`pedestrian = 1` exactly when some member of *any bundle dissolved up to and
including that one* (survivors plus removed members, in commit order) was
originally pedestrian: the check runs over the cumulative `processed` list,
so pedestrian members of earlier, unrelated bundles also set the flag
(survivor ids assumed distinct across bundles, as the source skips already
processed survivors). -/
theorem pedestrian_flag_cumulative (origPed : ℕ → Bool) (bundles : List Bundle)
    (i : ℕ) (hi : i < bundles.length)
    (hnd : (bundles.map Bundle.survivor).Nodup) :
    (commitPass origPed bundles).ped (bundles.get ⟨i, hi⟩).survivor =
      (membersThrough bundles i).any origPed := by
  have h := commitFold_ped_general origPed bundles [] ⟨[], [], origPed⟩
    (by simp) (by simp) hnd i hi
  rw [commitPass, h, List.nil_append]
  have hlen : i < (bundles.take (i + 1)).length := by
    rw [List.length_take]
    omega
  have htake : (bundles.take (i + 1)).get ⟨i, hlen⟩ = bundles.get ⟨i, hi⟩ := by
    simp [List.get_eq_getElem]
  have hmemb : bundles.get ⟨i, hi⟩ ∈ bundles.take (i + 1) := by
    rw [← htake]
    exact List.get_mem _ _ _
  have hs : (bundles.get ⟨i, hi⟩).survivor ∈ membersThrough bundles i := by
    rw [membersThrough, List.mem_flatten]
    exact ⟨bundleMembers (bundles.get ⟨i, hi⟩),
      List.mem_map_of_mem bundleMembers hmemb, List.mem_cons_self _ _⟩
  by_cases hmem : ((membersThrough bundles i).any origPed) = true
  · rw [hmem, Bool.true_or]
  · rw [Bool.not_eq_true] at hmem
    rw [hmem, Bool.false_or]
    by_cases horig : origPed (bundles.get ⟨i, hi⟩).survivor = true
    · exfalso
      have habs : (membersThrough bundles i).any origPed = true := by
        rw [List.any_eq_true]
        exact ⟨_, hs, horig⟩
      rw [habs] at hmem
      cases hmem
    · rw [Bool.not_eq_true] at horig
      exact horig

/-- Witness for C2's amended theorem on the concrete two-bundle pass: the
second survivor's flag equals the OR over all members of bundles 0 and 1. -/
theorem pedestrian_flag_cumulative_witness :
    (1 < bundlesC2.length ∧ (bundlesC2.map Bundle.survivor).Nodup) ∧
      (commitPass origPedC2 bundlesC2).ped
          (bundlesC2.get ⟨1, by decide⟩).survivor =
        (membersThrough bundlesC2 1).any origPedC2 :=
  ⟨⟨by decide, by decide⟩,
    pedestrian_flag_cumulative origPedC2 bundlesC2 1 (by decide) (by decide)⟩

end SimplifyStreets

namespace SimplifyStreets

/-! ## EdgeReassigner (`reassign_edges`, source lines 805-899)

The per-edge body of the rewrite loop (lines 821-874): look up the cluster
of each *original* endpoint, branch on presence and `keep`, snap the first /
last polyline coordinate to kept-cluster centroids, and drop the row when
the rewritten endpoints coincide (`if u == v: edges_gdf.drop(...)`,
lines 868-870). -/

/-- An input edge row of `reassign_edges`: id, original endpoints
(`old_u`/`old_v` after the rename on line 809) and polyline coordinates. -/
structure REdge where
  eid : ℕ
  old_u : ℕ
  old_v : ℕ
  coords : List (ℚ × ℚ)
deriving DecidableEq, Repr

/-- An output edge row: rewritten endpoints and geometry. -/
structure ROut where
  eid : ℕ
  u : ℕ
  v : ℕ
  coords : List (ℚ × ℚ)
deriving DecidableEq, Repr

/-- Environment of `reassign_edges`: the node table's `cluster` column and
the clusters table's `keep`, `x`, `y` columns. -/
structure ReassignEnv where
  cluster : ℕ → Option ℕ
  keep : ℕ → Bool
  cx : ℕ → ℚ
  cy : ℕ → ℚ

/-- The tail of the loop body (source lines 867-874): drop the row when the
rewritten `u == v`, otherwise store the rewritten endpoints and geometry. -/
def reassignFinish (eid u v : ℕ) (lc : List (ℚ × ℚ)) : Option ROut :=
  if u = v then none else some ⟨eid, u, v, lc⟩

/-- One iteration of the rewrite loop of `reassign_edges`
(source lines 821-874). -/
def reassignOne (env : ReassignEnv) (e : REdge) : Option ROut :=
  match env.cluster e.old_u, env.cluster e.old_v with
  | some cu, some cv =>
    if ¬ env.keep cu ∧ ¬ env.keep cv then
      reassignFinish e.eid e.old_u e.old_v e.coords
    else if ¬ env.keep cv then
      reassignFinish e.eid cu e.old_v (setFirst e.coords (env.cx cu, env.cy cu))
    else if ¬ env.keep cu then
      reassignFinish e.eid e.old_u cv (setLast e.coords (env.cx cv, env.cy cv))
    else
      reassignFinish e.eid cu cv
        (setLast (setFirst e.coords (env.cx cu, env.cy cu)) (env.cx cv, env.cy cv))
  | none, none => reassignFinish e.eid e.old_u e.old_v e.coords
  | none, some cv =>
    if ¬ env.keep cv then reassignFinish e.eid e.old_u e.old_v e.coords
    else reassignFinish e.eid e.old_u cv (setLast e.coords (env.cx cv, env.cy cv))
  | some cu, none =>
    if ¬ env.keep cu then reassignFinish e.eid e.old_u e.old_v e.coords
    else reassignFinish e.eid cu e.old_v (setFirst e.coords (env.cx cu, env.cy cu))

/-- The whole rewrite loop: surviving rows in order. -/
def reassign_edges (env : ReassignEnv) (edges : List REdge) : List ROut :=
  edges.filterMap (reassignOne env)

/-- Modelled from the spec's words: the `u` endpoint after cluster
reassignment — the cluster id when the original endpoint's cluster is kept,
the original node otherwise. -/
def rewrittenU (env : ReassignEnv) (e : REdge) : ℕ :=
  match env.cluster e.old_u with
  | some c => if env.keep c then c else e.old_u
  | none => e.old_u

/-- Modelled from the spec's words: the `v` endpoint after cluster
reassignment. -/
def rewrittenV (env : ReassignEnv) (e : REdge) : ℕ :=
  match env.cluster e.old_v with
  | some c => if env.keep c then c else e.old_v
  | none => e.old_v

lemma reassignFinish_spec (eid u v : ℕ) (lc : List (ℚ × ℚ)) :
    ((reassignFinish eid u v lc = none) ↔ u = v) ∧
      ∀ r : ROut, reassignFinish eid u v lc = some r → r.u = u ∧ r.v = v := by
  unfold reassignFinish
  by_cases h : u = v
  · rw [if_pos h]
    constructor
    · constructor
      · intro _
        exact h
      · intro _
        rfl
    · intro r hr
      exact Option.noConfusion hr
  · rw [if_neg h]
    constructor
    · constructor
      · intro hh
        exact Option.noConfusion hh
      · intro hh
        exact absurd hh h
    · intro r hr
      cases hr
      exact ⟨rfl, rfl⟩

/-- C9: in the rewrite loop of `reassign_edges`, an edge row is dropped iff
its endpoints rewritten by cluster reassignment coincide (`u == v`), and a
surviving row carries exactly the rewritten endpoints. -/
theorem reassign_edges_drop_iff (env : ReassignEnv) (e : REdge) :
    ((reassignOne env e = none) ↔ rewrittenU env e = rewrittenV env e) ∧
      ∀ r : ROut, reassignOne env e = some r →
        r.u = rewrittenU env e ∧ r.v = rewrittenV env e := by
  unfold reassignOne rewrittenU rewrittenV
  rcases hu : env.cluster e.old_u with _ | cu <;>
    rcases hv : env.cluster e.old_v with _ | cv
  · exact reassignFinish_spec _ _ _ _
  · by_cases hkv : env.keep cv = true
    · simp [hkv]
      exact reassignFinish_spec _ _ _ _
    · simp only [Bool.not_eq_true] at hkv
      simp [hkv]
      exact reassignFinish_spec _ _ _ _
  · by_cases hku : env.keep cu = true
    · simp [hku]
      exact reassignFinish_spec _ _ _ _
    · simp only [Bool.not_eq_true] at hku
      simp [hku]
      exact reassignFinish_spec _ _ _ _
  · by_cases hku : env.keep cu = true <;> by_cases hkv : env.keep cv = true
    · simp [hku, hkv]
      exact reassignFinish_spec _ _ _ _
    · simp only [Bool.not_eq_true] at hkv
      simp [hku, hkv]
      exact reassignFinish_spec _ _ _ _
    · simp only [Bool.not_eq_true] at hku
      simp [hku, hkv]
      exact reassignFinish_spec _ _ _ _
    · simp only [Bool.not_eq_true] at hku hkv
      simp [hku, hkv]
      exact reassignFinish_spec _ _ _ _

end SimplifyStreets
